import Mathlib

/-!
Verification development for the transcoding orchestrator in
fftools/ffmpeg.c.  Each C function relevant to the specification is
shallowly embedded as an executable Lean definition; machine integers
(int64_t, uint64_t, int) are modelled as Int / Nat, sentinel values
(AV_NOPTS_VALUE, INT64_MAX, error codes) as the concrete constants the
C headers define.  Collaborator calls (the decoder, the muxer, the
allocator, process_subtitle) are passed in as explicit oracle
parameters, and side effects on output streams are reified as action
traces.
-/

/-! ## Constants from the C headers -/

def INT64_MAX : Int := 9223372036854775807

def INT64_MIN : Int := -9223372036854775808

/-- AV_NOPTS_VALUE is INT64_MIN in libavutil. -/
def AV_NOPTS_VALUE : Int := INT64_MIN

/-- FFERRTAG of "EOF ". -/
def AVERROR_EOF : Int := -541478725

/-- AVERROR(EAGAIN) on Linux. -/
def AVERROR_EAGAIN : Int := -11

/-- AVERROR(ENOMEM). -/
def AVERROR_ENOMEM : Int := -12

def AV_TIME_BASE : Int := 1000000

/-! ## Signal & interrupt monitor (lines 183-202, 347-352) -/

/-- decode_interrupt_cb: `return received_nb_signals > atomic_load(&transcode_init_done);` -/
def decode_interrupt_cb (received_nb_signals transcode_init_done : Int) : Bool :=
  received_nb_signals > transcode_init_done

/-- The two volatile counters the signal handler mutates. -/
structure SigState where
  received_sigterm : Int
  received_nb_signals : Int
deriving DecidableEq, Repr

/-- What the handler does after updating the counters: either it returns
to the interrupted code, or it hard-exits the process. -/
inductive SigAction where
  | returns : SigAction
  | hardExit : String → Int → SigAction
deriving DecidableEq, Repr

def sigterm_message : String := "Received > 3 system signals, hard exiting\n"

/-- sigterm_handler: records the signal, increments the counter, restores
the TTY (the returned Bool: term_exit_sigsafe is always invoked), and
hard-exits with code 123 once the counter exceeds 3. -/
def sigterm_handler (sig : Int) (s : SigState) : SigState × Bool × SigAction :=
  let s1 : SigState :=
    { received_sigterm := sig, received_nb_signals := s.received_nb_signals + 1 }
  (s1, true,
    if s1.received_nb_signals > 3 then SigAction.hardExit sigterm_message 123
    else SigAction.returns)

/-- Deliver a sequence of signals, collecting the handler's actions. -/
def sigterm_run (sigs : List Int) (s : SigState) : SigState × List SigAction :=
  match sigs with
  | [] => (s, [])
  | sig :: rest =>
      let r := sigterm_handler sig s
      let rec' := sigterm_run rest r.1
      (rec'.1, r.2.2 :: rec'.2)

/-! ## Final exit code (main, lines 1333-1336) -/

/-- The computation `ret = received_nb_signals ? 255 : err_rate_exceeded ? 69 : ret;`
performed by main just before exit_program. -/
def main_exit_code (received_nb_signals err_rate_exceeded ret : Int) : Int :=
  if received_nb_signals ≠ 0 then 255
  else if err_rate_exceeded ≠ 0 then 69
  else ret

/-! ## Decode error rate (transcode, lines 1214-1219)

frames_decoded and decode_errors are uint64_t counters; the C expression
`ist->decode_errors / (ist->frames_decoded + ist->decode_errors)` divides
two unsigned integers, so the quotient is computed in integer arithmetic
before being converted to float for the comparison with max_error_rate. -/

/-- err_rate as the code computes it: unsigned integer division, then a
conversion to floating point (exact here, the quotient is 0 or 1). -/
def transcode_err_rate (frames_decoded decode_errors : Nat) : ℚ :=
  if frames_decoded ≠ 0 ∨ decode_errors ≠ 0 then
    ((decode_errors / (frames_decoded + decode_errors) : Nat) : ℚ)
  else 0

/-- The rate the specification describes: errors / (frames + errors) as a
real ratio. -/
def spec_err_rate (frames_decoded decode_errors : Nat) : ℚ :=
  if frames_decoded ≠ 0 ∨ decode_errors ≠ 0 then
    (decode_errors : ℚ) / ((frames_decoded : ℚ) + (decode_errors : ℚ))
  else 0

/-- Condition under which the loop at the end of transcode sets
*err_rate_exceeded for one stream: `err_rate > max_error_rate`. -/
def err_rate_check (max_error_rate : ℚ) (frames_decoded decode_errors : Nat) : Bool :=
  transcode_err_rate frames_decoded decode_errors > max_error_rate

/-- err_rate_exceeded after the whole loop: set iff some stream's
computed rate exceeds the maximum. -/
def transcode_err_rate_exceeded (max_error_rate : ℚ) (streams : List (Nat × Nat)) : Bool :=
  streams.any fun fe => err_rate_check max_error_rate fe.1 fe.2

/-! ## process_input_packet (lines 769-812) -/

/-- The slice of OutputStream that process_input_packet consults:
whether the stream has an encoder. -/
structure PIPOutputStream where
  enc : Bool
deriving DecidableEq, Repr

/-- The slice of InputStream that process_input_packet consults. -/
structure PIPInputStream where
  decoding_needed : Bool
  outputs : List PIPOutputStream
deriving DecidableEq, Repr

/-- The slice of InputFile that process_input_packet consults.
start_time is AV_NOPTS_VALUE when unset. -/
structure PIPInputFile where
  recording_time : Int
  start_time : Int
  start_time_effective : Int
deriving DecidableEq, Repr

/-- A demuxed packet: dts_est is carried in pkt->opaque_ref, which may
be absent. -/
structure PIPPacket where
  dts_est : Option Int
deriving DecidableEq, Repr

/-- What process_input_packet does to one OutputStream: skip it
(encoder present, or flushing with no_eof), close it
(close_output_stream), or stream-copy the packet to the muxer
(of_streamcopy, carrying dts_est). -/
inductive OstAction where
  | skip : OstAction
  | close : OstAction
  | streamcopy : Int → OstAction
deriving DecidableEq, Repr

/-- dts_est extraction: pd->dts_est if the packet and its opaque_ref are
present, AV_NOPTS_VALUE otherwise. -/
def pip_dts_est (pkt : Option PIPPacket) : Int :=
  match pkt with
  | some p => match p.dts_est with
    | some d => d
    | none => AV_NOPTS_VALUE
  | none => AV_NOPTS_VALUE

/-- start_time as accumulated at lines 789-793: zero unless copy_ts,
in which case f->start_time (when set) plus, unless start_at_zero,
f->start_time_effective. -/
def pip_start_time (copy_ts start_at_zero : Bool) (f : PIPInputFile) : Int :=
  if copy_ts then
    (if f.start_time ≠ AV_NOPTS_VALUE then f.start_time else 0) +
    (if start_at_zero then 0 else f.start_time_effective)
  else 0

/-- duration_exceeded flag, lines 787-796. -/
def pip_duration_exceeded (copy_ts start_at_zero : Bool) (f : PIPInputFile)
    (dts_est : Int) : Bool :=
  if f.recording_time = INT64_MAX then false
  else decide (f.recording_time + pip_start_time copy_ts start_at_zero f ≤ dts_est)

/-- Per-output dispatch, lines 798-809. -/
def ost_action (pktPresent no_eof dur : Bool) (dts_est : Int)
    (ost : PIPOutputStream) : OstAction :=
  if ost.enc || (!pktPresent && no_eof) then OstAction.skip
  else if dur then OstAction.close
  else OstAction.streamcopy dts_est

/-- process_input_packet.  dec_ret is the value the decoder collaborator
dec_packet would return for this call (consulted only when
ist->decoding_needed).  Returns `!eof_reached` together with the action
performed on every output of the stream. -/
def process_input_packet (copy_ts start_at_zero : Bool) (f : PIPInputFile)
    (ist : PIPInputStream) (pkt : Option PIPPacket) (no_eof : Bool)
    (dec_ret : Int) : Int × List OstAction :=
  let ret : Int := if ist.decoding_needed then dec_ret else 0
  let eof_reached : Bool :=
    decide (ret = AVERROR_EOF) || (pkt.isNone && !ist.decoding_needed)
  let dts_est := pip_dts_est pkt
  let dur := pip_duration_exceeded copy_ts start_at_zero f dts_est
  let actions := ist.outputs.map (ost_action pkt.isSome no_eof dur dts_est)
  (if eof_reached then 0 else 1, actions)

/-! ## Theorems -/

/-- C3: decode_interrupt_cb returns true iff received_nb_signals exceeds
transcode_init_done, and false whenever received_nb_signals ≤
transcode_init_done, for every value of the two counters. -/
theorem decode_interrupt_cb_iff (r t : Int) :
    (decode_interrupt_cb r t = true ↔ t < r) ∧
    (decode_interrupt_cb r t = false ↔ r ≤ t) := by
  constructor
  · simp [decode_interrupt_cb]
  · simp [decode_interrupt_cb]

/-- C4: the final exit code is 255 whenever at least one signal was
received; else 69 whenever the error-rate limit was exceeded; else
the value transcode returned.  Signals take priority over the
error-rate verdict, which takes priority over the propagated code. -/
theorem main_exit_code_priority (s e r : Int) :
    (s ≠ 0 → main_exit_code s e r = 255) ∧
    (s = 0 → e ≠ 0 → main_exit_code s e r = 69) ∧
    (s = 0 → e = 0 → main_exit_code s e r = r) := by
  refine ⟨fun hs => ?_, fun hs he => ?_, fun hs he => ?_⟩
  · simp [main_exit_code, hs]
  · simp [main_exit_code, hs, he]
  · simp [main_exit_code, hs, he]

theorem main_exit_code_priority_witness :
    main_exit_code 1 1 7 = 255 ∧ main_exit_code 0 1 7 = 69 ∧
    main_exit_code 0 0 7 = 7 :=
  ⟨(main_exit_code_priority 1 1 7).1 (by decide),
   (main_exit_code_priority 0 1 7).2.1 rfl (by decide),
   (main_exit_code_priority 0 0 7).2.2 rfl rfl⟩

/-- C6: on every delivered signal the handler records the signal number,
increments received_nb_signals, restores the terminal, and hard-exits
with the fixed message and code 123 exactly when the incremented counter
exceeds 3; starting from the initial state, the first three signals
return and the fourth hard-exits. -/
theorem sigterm_handler_spec (sig : Int) (s : SigState) :
    ((sigterm_handler sig s).1.received_sigterm = sig) ∧
    ((sigterm_handler sig s).1.received_nb_signals = s.received_nb_signals + 1) ∧
    ((sigterm_handler sig s).2.1 = true) ∧
    ((sigterm_handler sig s).2.2 = SigAction.hardExit sigterm_message 123 ↔
      3 < s.received_nb_signals + 1) ∧
    ((sigterm_run [2, 2, 2, 2] ⟨0, 0⟩).2 =
      [SigAction.returns, SigAction.returns, SigAction.returns,
       SigAction.hardExit sigterm_message 123]) := by
  refine ⟨rfl, rfl, rfl, ?_, by decide⟩
  by_cases h : 3 < s.received_nb_signals + 1
  · simp [sigterm_handler, h]
  · simp [sigterm_handler, h]

/-- C9: process_input_packet returns the positive value 1 unless the
decoder signalled EOF or a null packet was supplied with decoding not
needed, and returns 0 in exactly those cases. -/
theorem process_input_packet_not_eof (copy_ts start_at_zero : Bool)
    (f : PIPInputFile) (ist : PIPInputStream) (pkt : Option PIPPacket)
    (no_eof : Bool) (dec_ret : Int) :
    ((process_input_packet copy_ts start_at_zero f ist pkt no_eof dec_ret).1 = 1 ↔
      ¬((ist.decoding_needed = true ∧ dec_ret = AVERROR_EOF) ∨
        (pkt = none ∧ ist.decoding_needed = false))) ∧
    ((process_input_packet copy_ts start_at_zero f ist pkt no_eof dec_ret).1 = 0 ↔
      ((ist.decoding_needed = true ∧ dec_ret = AVERROR_EOF) ∨
        (pkt = none ∧ ist.decoding_needed = false))) := by
  cases hp : pkt <;> cases hd : ist.decoding_needed <;>
    by_cases hr : dec_ret = AVERROR_EOF <;>
      simp [process_input_packet, hp, hd, hr] <;> decide

/-- C5: when the input file has a recording-time limit and the packet's
dts_est is at or past recording_time plus the copy-ts-adjusted start
time, every output stream without an encoder is closed and none is
stream-copied. -/
theorem process_input_packet_duration_close
    (copy_ts start_at_zero : Bool) (f : PIPInputFile) (ist : PIPInputStream)
    (d : Int) (no_eof : Bool) (dec_ret : Int)
    (hrec : f.recording_time ≠ INT64_MAX)
    (hdts : f.recording_time + pip_start_time copy_ts start_at_zero f ≤ d) :
    (process_input_packet copy_ts start_at_zero f ist (some ⟨some d⟩) no_eof dec_ret).2 =
      ist.outputs.map (fun ost => if ost.enc then OstAction.skip else OstAction.close) := by
  have hdur : pip_duration_exceeded copy_ts start_at_zero f
      (pip_dts_est (some ⟨some d⟩)) = true := by
    simp [pip_duration_exceeded, pip_dts_est, hrec, hdts]
  simp [process_input_packet, hdur, ost_action]

theorem process_input_packet_duration_close_witness :
    (process_input_packet false false ⟨100, AV_NOPTS_VALUE, 0⟩
      ⟨false, [⟨false⟩, ⟨true⟩]⟩ (some ⟨some 100⟩) false 0).2 =
      [OstAction.close, OstAction.skip] :=
  (process_input_packet_duration_close false false ⟨100, AV_NOPTS_VALUE, 0⟩
    ⟨false, [⟨false⟩, ⟨true⟩]⟩ 100 false 0 (by decide)
    (by norm_num [pip_start_time])).trans (by decide)

/-- C1: the code divides the uint64 counters before converting to float,
so an input where 3 of 5 packets fail to decode yields a computed
err_rate of 0, not the 0.6 ratio the specification expects; with
max_error_rate = 0.5 the exceeded flag stays clear and the exit code is
the one transcode returned (0), not 69. -/
theorem transcode_err_rate_integer_division :
    transcode_err_rate 2 3 = 0 ∧
    spec_err_rate 2 3 = 3 / 5 ∧
    err_rate_check (1 / 2) 2 3 = false ∧
    transcode_err_rate_exceeded (1 / 2) [(2, 3)] = false ∧
    main_exit_code 0 0 0 = 0 := by
  refine ⟨?_, ?_, ?_, ?_, by decide⟩ <;>
    norm_num [transcode_err_rate, spec_err_rate, err_rate_check,
      transcode_err_rate_exceeded]

/-! ## choose_output (lines 897-929) -/

/-- The slice of OutputStream that choose_output consults.
filter_last_pts is `some p` when ost->filter is non-null, with p the
filter's last_pts (which may itself be AV_NOPTS_VALUE). -/
structure COOutputStream where
  initialized : Bool
  inputs_done : Bool
  finished : Bool
  unavailable : Bool
  filter_last_pts : Option Int
  last_mux_dts : Int
deriving DecidableEq, Repr

/-- opts for one stream, lines 905-914: filter.last_pts when the stream
has a filter whose last_pts is known, else last_mux_dts with
AV_NOPTS_VALUE mapped to INT64_MIN. -/
def ost_opts (ost : COOutputStream) : Int :=
  match ost.filter_last_pts with
  | some p =>
      if p ≠ AV_NOPTS_VALUE then p
      else if ost.last_mux_dts = AV_NOPTS_VALUE then INT64_MIN else ost.last_mux_dts
  | none =>
      if ost.last_mux_dts = AV_NOPTS_VALUE then INT64_MIN else ost.last_mux_dts

/-- The first-pass priming test at line 916. -/
def uninit_pick (ost : COOutputStream) : Bool :=
  !ost.initialized && !ost.inputs_done && !ost.finished

/-- The scan loop of choose_output: opts_min starts at INT64_MAX,
ost_min at NULL; an uninitialized unfinished stream breaks the loop,
otherwise a non-finished stream strictly below the running minimum
becomes the new candidate. -/
def choose_output_go : List COOutputStream → Int → Option COOutputStream →
    Option COOutputStream
  | [], _, best => best
  | ost :: rest, opts_min, best =>
      let opts := ost_opts ost
      if uninit_pick ost then some ost
      else if !ost.finished && decide (opts < opts_min) then
        choose_output_go rest opts (some ost)
      else choose_output_go rest opts_min best

/-- Result of choose_output: 0 with a selected stream, AVERROR(EAGAIN)
when the chosen stream is unavailable, AVERROR_EOF when no stream was
chosen. -/
inductive ChooseResult where
  | ok : COOutputStream → ChooseResult
  | eagain : COOutputStream → ChooseResult
  | eof : ChooseResult
deriving DecidableEq, Repr

def choose_output (osts : List COOutputStream) : ChooseResult :=
  match choose_output_go osts INT64_MAX none with
  | none => ChooseResult.eof
  | some ost =>
      if ost.unavailable then ChooseResult.eagain ost else ChooseResult.ok ost

/-- A stream the scan loop can select: either the priming test fires,
or the stream is not finished and its opts is strictly below the
initial ceiling INT64_MAX. -/
def is_candidate (ost : COOutputStream) : Bool :=
  uninit_pick ost || (!ost.finished && decide (ost_opts ost < INT64_MAX))

theorem choose_output_go_some (l : List COOutputStream) :
    ∀ (m : Int) (b : COOutputStream), choose_output_go l m (some b) ≠ none := by
  induction l with
  | nil => intro m b; simp [choose_output_go]
  | cons ost rest ih =>
      intro m b
      simp only [choose_output_go]
      split
      · simp
      · split
        · exact ih _ _
        · exact ih _ _

theorem choose_output_go_none_iff (l : List COOutputStream) :
    ∀ m : Int, (choose_output_go l m none = none ↔
      ∀ ost ∈ l, uninit_pick ost = false ∧
        (ost.finished = true ∨ m ≤ ost_opts ost)) := by
  induction l with
  | nil => intro m; simp [choose_output_go]
  | cons ost rest ih =>
      intro m
      simp only [choose_output_go]
      by_cases h1 : uninit_pick ost = true
      · rw [if_pos h1]
        constructor
        · intro h; cases h
        · intro h
          exact absurd (h ost (by simp)).1 (by simp [h1])
      · rw [if_neg h1]
        by_cases h2 : (!ost.finished && decide (ost_opts ost < m)) = true
        · rw [if_pos h2]
          simp only [Bool.and_eq_true, Bool.not_eq_true', decide_eq_true_eq] at h2
          constructor
          · intro h; exact absurd h (choose_output_go_some rest _ _)
          · intro h
            obtain ⟨-, hf⟩ := h ost (by simp)
            rcases hf with hf | hf
            · rw [h2.1] at hf; cases hf
            · exact absurd h2.2 (not_lt.mpr hf)
        · rw [if_neg h2]
          rw [ih m]
          simp only [Bool.and_eq_true, Bool.not_eq_true', decide_eq_true_eq,
            not_and] at h2
          constructor
          · intro h o ho
            rcases List.mem_cons.mp ho with rfl | ho
            · refine ⟨by simpa using h1, ?_⟩
              by_cases hf : o.finished = true
              · exact Or.inl hf
              · have hf' : o.finished = false := by
                  revert hf; cases o.finished <;> simp
                exact Or.inr (not_lt.mp (h2 hf'))
            · exact h o ho
          · intro h o ho
            exact h o (List.mem_cons_of_mem _ ho)

theorem choose_output_go_cand (l : List COOutputStream) :
    ∀ (m : Int) (b : Option COOutputStream) (st : COOutputStream),
      choose_output_go l m b = some st →
      b = some st ∨
        (st ∈ l ∧ (uninit_pick st = true ∨
          (st.finished = false ∧ ost_opts st < m))) := by
  induction l with
  | nil => intro m b st h; exact Or.inl h
  | cons ost rest ih =>
      intro m b st h
      simp only [choose_output_go] at h
      split at h
      case isTrue h1 =>
        cases h
        exact Or.inr ⟨by simp, Or.inl h1⟩
      case isFalse h1 =>
        split at h
        case isTrue h2 =>
          simp only [Bool.and_eq_true, Bool.not_eq_true', decide_eq_true_eq] at h2
          rcases ih _ _ _ h with hb | ⟨hmem, hc⟩
          · cases hb
            exact Or.inr ⟨by simp, Or.inr ⟨h2.1, h2.2⟩⟩
          · refine Or.inr ⟨List.mem_cons_of_mem _ hmem, ?_⟩
            rcases hc with hc | ⟨hcf, hcl⟩
            · exact Or.inl hc
            · exact Or.inr ⟨hcf, lt_trans hcl h2.2⟩
        case isFalse h2 =>
          rcases ih _ _ _ h with hb | ⟨hmem, hc⟩
          · exact Or.inl hb
          · exact Or.inr ⟨List.mem_cons_of_mem _ hmem, hc⟩

theorem choose_output_go_uninit (l : List COOutputStream) :
    ∀ (m : Int) (b : Option COOutputStream) (u : COOutputStream),
      l.find? uninit_pick = some u → choose_output_go l m b = some u := by
  induction l with
  | nil => intro m b u h; cases h
  | cons ost rest ih =>
      intro m b u h
      by_cases h1 : uninit_pick ost = true
      · rw [List.find?_cons_of_pos _ h1] at h
        cases h
        simp [choose_output_go, h1]
      · rw [List.find?_cons_of_neg _ h1] at h
        simp only [choose_output_go]
        rw [if_neg h1]
        split
        · exact ih _ _ _ h
        · exact ih _ _ _ h

theorem choose_output_go_min (l : List COOutputStream)
    (hnu : ∀ ost ∈ l, uninit_pick ost = false) :
    ∀ (m : Int) (b : Option COOutputStream),
      (choose_output_go l m b = b ∧
        ∀ ost ∈ l, ost.finished = true ∨ m ≤ ost_opts ost) ∨
      (∃ st ∈ l, choose_output_go l m b = some st ∧ st.finished = false ∧
        ost_opts st < m ∧
        ∀ ost ∈ l, ost.finished = false → ost_opts st ≤ ost_opts ost) := by
  induction l with
  | nil => intro m b; exact Or.inl ⟨rfl, by simp⟩
  | cons ost rest ih =>
      have hostu : uninit_pick ost = false := hnu ost (by simp)
      have hrest : ∀ o ∈ rest, uninit_pick o = false :=
        fun o ho => hnu o (List.mem_cons_of_mem _ ho)
      intro m b
      simp only [choose_output_go]
      rw [if_neg (by simp [hostu])]
      by_cases h2 : (!ost.finished && decide (ost_opts ost < m)) = true
      · rw [if_pos h2]
        simp only [Bool.and_eq_true, Bool.not_eq_true', decide_eq_true_eq] at h2
        obtain ⟨hfin, hlt⟩ := h2
        rcases ih hrest (ost_opts ost) (some ost) with
          ⟨heq, hall⟩ | ⟨st, hmem, heq, hstfin, hstlt, hmin⟩
        · refine Or.inr ⟨ost, by simp, heq, hfin, hlt, ?_⟩
          intro o ho hof
          rcases List.mem_cons.mp ho with rfl | ho
          · exact le_refl _
          · rcases hall o ho with h | h
            · rw [hof] at h; cases h
            · exact h
        · refine Or.inr ⟨st, List.mem_cons_of_mem _ hmem, heq, hstfin,
            lt_trans hstlt hlt, ?_⟩
          intro o ho hof
          rcases List.mem_cons.mp ho with rfl | ho
          · exact le_of_lt hstlt
          · exact hmin o ho hof
      · rw [if_neg h2]
        simp only [Bool.and_eq_true, Bool.not_eq_true', decide_eq_true_eq,
          not_and] at h2
        rcases ih hrest m b with
          ⟨heq, hall⟩ | ⟨st, hmem, heq, hstfin, hstlt, hmin⟩
        · refine Or.inl ⟨heq, ?_⟩
          intro o ho
          rcases List.mem_cons.mp ho with rfl | ho
          · by_cases hf : o.finished = true
            · exact Or.inl hf
            · have hf' : o.finished = false := by
                revert hf; cases o.finished <;> simp
              exact Or.inr (not_lt.mp (h2 hf'))
          · exact hall o ho
        · refine Or.inr ⟨st, List.mem_cons_of_mem _ hmem, heq, hstfin, hstlt, ?_⟩
          intro o ho hof
          rcases List.mem_cons.mp ho with rfl | ho
          · exact le_trans (le_of_lt hstlt) (not_lt.mp (h2 hof))
          · exact hmin o ho hof

/-- C2 (amended): choose_output first picks, in iteration order, a
stream that is not initialized, not inputs-done and not finished;
otherwise it selects, among non-finished streams, one of minimal opts;
it returns retry-again exactly when the chosen stream is unavailable,
never returns a finished stream, and returns end-of-file exactly when no
stream is selectable — where a non-finished stream whose opts equals
INT64_MAX (the loop's initial ceiling) is not selectable. -/
theorem choose_output_spec (osts : List COOutputStream) :
    (choose_output osts = ChooseResult.eof ↔
      ∀ ost ∈ osts, is_candidate ost = false) ∧
    (∀ st, (choose_output osts = ChooseResult.ok st ∨
            choose_output osts = ChooseResult.eagain st) →
      st ∈ osts ∧ st.finished = false ∧
      (choose_output osts = ChooseResult.eagain st ↔ st.unavailable = true)) ∧
    (∀ u, osts.find? uninit_pick = some u →
      choose_output osts =
        (if u.unavailable then ChooseResult.eagain u else ChooseResult.ok u)) ∧
    (osts.find? uninit_pick = none →
      ∀ st, (choose_output osts = ChooseResult.ok st ∨
             choose_output osts = ChooseResult.eagain st) →
        ∀ ost ∈ osts, ost.finished = false → ost_opts st ≤ ost_opts ost) := by
  refine ⟨?_, ?_, ?_, ?_⟩
  · -- eof characterization
    cases hgo : choose_output_go osts INT64_MAX none with
    | none =>
        simp only [choose_output, hgo]
        constructor
        · intro _ ost ho
          have h := (choose_output_go_none_iff osts INT64_MAX).mp hgo ost ho
          simp only [is_candidate, Bool.or_eq_false_iff, Bool.and_eq_false_iff]
          refine ⟨h.1, ?_⟩
          rcases h.2 with hf | hl
          · exact Or.inl (by simp [hf])
          · exact Or.inr (by simpa using not_lt.mpr hl)
        · intro _; trivial
    | some st =>
        simp only [choose_output, hgo]
        have hc := choose_output_go_cand osts INT64_MAX none st hgo
        rcases hc with hb | ⟨hmem, hcand⟩
        · cases hb
        constructor
        · intro h
          split at h <;> cases h
        · intro h
          have := h st hmem
          simp only [is_candidate, Bool.or_eq_false_iff,
            Bool.and_eq_false_iff] at this
          rcases hcand with hu | ⟨hf, hl⟩
          · rw [hu] at this; cases this.1
          · rcases this.2 with h1 | h1
            · rw [hf] at h1; simp at h1
            · simp only [decide_eq_false_iff_not] at h1
              exact absurd hl h1
  · -- the chosen stream: membership, not finished, eagain iff unavailable
    intro st hst
    cases hgo : choose_output_go osts INT64_MAX none with
    | none =>
        simp only [choose_output, hgo] at hst
        rcases hst with h | h <;> cases h
    | some x =>
        simp only [choose_output, hgo] at hst
        have hc := choose_output_go_cand osts INT64_MAX none x hgo
        rcases hc with hb | ⟨hmem, hcand⟩
        · cases hb
        have hxst : x = st := by
          rcases hst with h | h <;> split at h <;> cases h <;> rfl
        subst hxst
        have hfin : x.finished = false := by
          rcases hcand with hu | ⟨hf, -⟩
          · simp only [uninit_pick, Bool.and_eq_true, Bool.not_eq_true'] at hu
            exact hu.2
          · exact hf
        refine ⟨hmem, hfin, ?_⟩
        simp only [choose_output, hgo]
        by_cases hu : x.unavailable = true
        · simp [hu]
        · have hu' : x.unavailable = false := by
            revert hu; cases x.unavailable <;> simp
          simp [hu']
  · -- first-pass priming selects the first uninitialized stream
    intro u hfind
    have := choose_output_go_uninit osts INT64_MAX none u hfind
    simp [choose_output, this]
  · -- minimality among non-finished streams
    intro hnone st hst ost ho hof
    have hnu : ∀ o ∈ osts, uninit_pick o = false := by
      intro o ho'
      have := List.find?_eq_none.mp hnone o ho'
      revert this; cases uninit_pick o <;> simp
    rcases choose_output_go_min osts hnu INT64_MAX none with
      ⟨heq, -⟩ | ⟨x, -, heq, -, -, hmin⟩
    · simp only [choose_output, heq] at hst
      rcases hst with h | h <;> cases h
    · simp only [choose_output, heq] at hst
      have hxst : x = st := by
        rcases hst with h | h <;> split at h <;> cases h <;> rfl
      subst hxst
      exact hmin ost ho hof

/-- C2 counterexample: a single initialized, non-finished, available
stream whose filter last_pts equals INT64_MAX makes choose_output return
end-of-file even though a non-finished candidate stream exists, so
"returns end-of-file exactly when no candidate exists" fails as stated. -/
theorem choose_output_eof_counterexample :
    choose_output [⟨true, false, false, false, some INT64_MAX, 0⟩] =
      ChooseResult.eof ∧
    (⟨true, false, false, false, some INT64_MAX, 0⟩ :
      COOutputStream).finished = false := by
  constructor
  · rfl
  · rfl

theorem choose_output_spec_witness :
    ((⟨true, false, false, false, none, 3⟩ : COOutputStream).finished = false) ∧
    (ost_opts ⟨true, false, false, false, none, 3⟩ ≤
      ost_opts ⟨true, false, false, false, none, 5⟩) := by
  have h := choose_output_spec
    [⟨true, false, true, false, none, 10⟩, ⟨true, false, false, false, none, 5⟩,
     ⟨true, false, false, false, none, 3⟩]
  obtain ⟨-, h2, -, h4⟩ := h
  have hok : choose_output
      [⟨true, false, true, false, none, 10⟩, ⟨true, false, false, false, none, 5⟩,
       ⟨true, false, false, false, none, 3⟩] =
      ChooseResult.ok ⟨true, false, false, false, none, 3⟩ := by decide
  refine ⟨(h2 _ (Or.inl hok)).2.1, ?_⟩
  exact h4 (by decide) _ (Or.inl hok) _ (by simp) rfl

/-! ## copy_av_subtitle (lines 638-716)

Buffers are lists of bytes; the allocator is an oracle `alloc : Nat →
Bool` consumed in program order (calloc of the rects array, then per
rect: av_mallocz of the rect, av_strdup of text and ass when present,
av_memdup of each present data plane).  Every function returns the next
allocation index alongside its Except result; a failed copy returns
AVERROR(ENOMEM) and no subtitle, mirroring the cleanup path that frees
the partial tmp and leaves *dst unwritten. -/

def SUBTITLE_BITMAP : Int := 1

def AVPALETTE_SIZE : Int := 1024

/-- AVSubtitleRect: data and linesize model the uint8_t *data[4] /
int linesize[4] arrays (absent planes are none / 0). -/
structure AVSubtitleRect where
  type : Int
  flags : Int
  x : Int
  y : Int
  w : Int
  h : Int
  nb_colors : Int
  text : Option String
  ass : Option String
  data : List (Option (List Nat))
  linesize : List Int
deriving DecidableEq, Repr

structure AVSubtitle where
  format : Int
  start_display_time : Int
  end_display_time : Int
  rects : List AVSubtitleRect
  pts : Int
deriving DecidableEq, Repr

/-- buf_size for plane j of a rect, lines 692-694: a fixed palette size
for the second plane of a bitmap subtitle, h * linesize[j] otherwise. -/
def rect_buf_size (r : AVSubtitleRect) (j : Nat) : Int :=
  if r.type = SUBTITLE_BITMAP ∧ j = 1 then AVPALETTE_SIZE
  else r.h * r.linesize.getD j 0

/-- av_strdup of an optional C string, guarded by the allocator. -/
def copy_str (alloc : Nat → Bool) (k : Nat) :
    Option String → Except Int (Option String) × Nat
  | none => (Except.ok none, k)
  | some s =>
      if alloc k then (Except.ok (some s), k + 1)
      else (Except.error AVERROR_ENOMEM, k + 1)

/-- The j-loop at lines 688-704: absent planes are skipped (leaving the
zero-initialized none / 0 in the copy), present planes are av_memdup'ed
at buf_size bytes and their linesize copied. -/
def copy_planes (alloc : Nat → Bool) (r : AVSubtitleRect) :
    List Nat → Nat → Except Int (List (Option (List Nat)) × List Int) × Nat
  | [], k => (Except.ok ([], []), k)
  | j :: js, k =>
      match r.data.getD j none with
      | none =>
          match copy_planes alloc r js k with
          | (Except.error e, k1) => (Except.error e, k1)
          | (Except.ok (d, ls), k1) => (Except.ok (none :: d, 0 :: ls), k1)
      | some buf =>
          if alloc k then
            match copy_planes alloc r js (k + 1) with
            | (Except.error e, k1) => (Except.error e, k1)
            | (Except.ok (d, ls), k1) =>
                (Except.ok (some (buf.take (rect_buf_size r j).toNat) :: d,
                  r.linesize.getD j 0 :: ls), k1)
          else (Except.error AVERROR_ENOMEM, k + 1)

/-- The per-rect body of the copy loop, lines 656-705: av_mallocz the
rect, copy the scalar fields, strdup text and ass, memdup the planes. -/
def copy_rect (alloc : Nat → Bool) (k : Nat) (r : AVSubtitleRect) :
    Except Int AVSubtitleRect × Nat :=
  if alloc k then
    match copy_str alloc (k + 1) r.text with
    | (Except.error e, k1) => (Except.error e, k1)
    | (Except.ok text1, k1) =>
        match copy_str alloc k1 r.ass with
        | (Except.error e, k2) => (Except.error e, k2)
        | (Except.ok ass1, k2) =>
            match copy_planes alloc r [0, 1, 2, 3] k2 with
            | (Except.error e, k3) => (Except.error e, k3)
            | (Except.ok (d, ls), k3) =>
                (Except.ok
                  { type := r.type, flags := r.flags, x := r.x,
                    y := r.y, w := r.w, h := r.h, nb_colors := r.nb_colors,
                    text := text1, ass := ass1, data := d, linesize := ls }, k3)
  else (Except.error AVERROR_ENOMEM, k + 1)

def copy_rects (alloc : Nat → Bool) (k : Nat) :
    List AVSubtitleRect → Except Int (List AVSubtitleRect) × Nat
  | [] => (Except.ok [], k)
  | r :: rs =>
      match copy_rect alloc k r with
      | (Except.error e, k1) => (Except.error e, k1)
      | (Except.ok r1, k1) =>
          match copy_rects alloc k1 rs with
          | (Except.error e, k2) => (Except.error e, k2)
          | (Except.ok rs1, k2) => (Except.ok (r1 :: rs1), k2)

/-- copy_av_subtitle.  A subtitle with no rects copies with no
allocation (the early `goto success`); otherwise the rects array is
calloc'ed and each rect deep-copied. -/
def copy_av_subtitle (alloc : Nat → Bool) (src : AVSubtitle) :
    Except Int AVSubtitle × Nat :=
  if src.rects.length = 0 then
    (Except.ok
      { format := src.format,
        start_display_time := src.start_display_time,
        end_display_time := src.end_display_time, rects := [],
        pts := src.pts }, 0)
  else if alloc 0 then
    match copy_rects alloc 1 src.rects with
    | (Except.error e, k) => (Except.error e, k)
    | (Except.ok rs, k) =>
        (Except.ok
          { format := src.format,
            start_display_time := src.start_display_time,
            end_display_time := src.end_display_time, rects := rs,
            pts := src.pts }, k)
  else (Except.error AVERROR_ENOMEM, 1)

/-- The value the copy loop produces for plane j of a rect: absent
planes stay absent, present planes are duplicated at buf_size bytes. -/
def plane_copy (r : AVSubtitleRect) (j : Nat) : Option (List Nat) :=
  match r.data.getD j none with
  | none => none
  | some buf => some (buf.take (rect_buf_size r j).toNat)

/-- The linesize the copy loop produces for plane j: copied only when
the plane is present, otherwise left at the zero of av_mallocz. -/
def lsz_copy (r : AVSubtitleRect) (j : Nat) : Int :=
  match r.data.getD j none with
  | none => 0
  | some _ => r.linesize.getD j 0

/-- The rect a successful copy_rect produces. -/
def rect_copy_spec (r : AVSubtitleRect) : AVSubtitleRect :=
  { type := r.type, flags := r.flags, x := r.x, y := r.y, w := r.w, h := r.h,
    nb_colors := r.nb_colors, text := r.text, ass := r.ass,
    data := [0, 1, 2, 3].map (plane_copy r),
    linesize := [0, 1, 2, 3].map (lsz_copy r) }

theorem copy_str_ok (alloc : Nat → Bool) (k : Nat) (o o1 : Option String)
    (k1 : Nat) (h : copy_str alloc k o = (Except.ok o1, k1)) : o1 = o := by
  cases o with
  | none =>
      simp only [copy_str, Prod.mk.injEq, Except.ok.injEq] at h
      exact h.1.symm
  | some s =>
      simp only [copy_str] at h
      split at h
      · simp only [Prod.mk.injEq, Except.ok.injEq] at h
        exact h.1.symm
      · simp at h

theorem copy_str_err (alloc : Nat → Bool) (k : Nat) (o : Option String)
    (e : Int) (k1 : Nat) (h : copy_str alloc k o = (Except.error e, k1)) :
    e = AVERROR_ENOMEM := by
  cases o with
  | none => simp [copy_str] at h
  | some s =>
      simp only [copy_str] at h
      split at h
      · simp at h
      · simp only [Prod.mk.injEq, Except.error.injEq] at h
        exact h.1.symm

theorem copy_planes_ok (alloc : Nat → Bool) (r : AVSubtitleRect) :
    ∀ (js : List Nat) (k : Nat) (d : List (Option (List Nat)))
      (ls : List Int) (k1 : Nat),
      copy_planes alloc r js k = (Except.ok (d, ls), k1) →
      d = js.map (plane_copy r) ∧ ls = js.map (lsz_copy r) := by
  intro js
  induction js with
  | nil =>
      intro k d ls k1 h
      simp only [copy_planes, Prod.mk.injEq, Except.ok.injEq] at h
      obtain ⟨⟨h1, h2⟩, -⟩ := h
      simp [← h1, ← h2]
  | cons j js ih =>
      intro k d ls k1 h
      simp only [copy_planes] at h
      split at h
      next hd =>
        have hp : plane_copy r j = none := by unfold plane_copy; rw [hd]
        have hl : lsz_copy r j = 0 := by unfold lsz_copy; rw [hd]
        split at h
        next hin => simp at h
        next hin =>
          simp only [Prod.mk.injEq, Except.ok.injEq] at h
          obtain ⟨⟨h1, h2⟩, -⟩ := h
          obtain ⟨g1, g2⟩ := ih _ _ _ _ hin
          subst g1; subst g2
          simp [← h1, ← h2, hp, hl]
      next buf hd =>
        have hp : plane_copy r j = some (buf.take (rect_buf_size r j).toNat) := by
          unfold plane_copy; rw [hd]
        have hl : lsz_copy r j = r.linesize.getD j 0 := by
          unfold lsz_copy; rw [hd]
        split at h
        · split at h
          next hin => simp at h
          next hin =>
            simp only [Prod.mk.injEq, Except.ok.injEq] at h
            obtain ⟨⟨h1, h2⟩, -⟩ := h
            obtain ⟨g1, g2⟩ := ih _ _ _ _ hin
            subst g1; subst g2
            simp [← h1, ← h2, hp, hl]
        · simp at h

theorem copy_planes_err (alloc : Nat → Bool) (r : AVSubtitleRect) :
    ∀ (js : List Nat) (k : Nat) (e : Int) (k1 : Nat),
      copy_planes alloc r js k = (Except.error e, k1) → e = AVERROR_ENOMEM := by
  intro js
  induction js with
  | nil => intro k e k1 h; simp [copy_planes] at h
  | cons j js ih =>
      intro k e k1 h
      simp only [copy_planes] at h
      split at h
      next hd =>
        split at h
        next hin =>
          simp only [Prod.mk.injEq, Except.error.injEq] at h
          exact h.1 ▸ ih _ _ _ hin
        next hin => simp at h
      next buf hd =>
        split at h
        · split at h
          next hin =>
            simp only [Prod.mk.injEq, Except.error.injEq] at h
            exact h.1 ▸ ih _ _ _ hin
          next hin => simp at h
        · simp only [Prod.mk.injEq, Except.error.injEq] at h
          exact h.1.symm
theorem copy_rect_ok (alloc : Nat → Bool) (k : Nat) (r r1 : AVSubtitleRect)
    (k1 : Nat) (h : copy_rect alloc k r = (Except.ok r1, k1)) :
    r1 = rect_copy_spec r := by
  simp only [copy_rect] at h
  split at h
  · split at h
    next hin => simp at h
    next text1 kk hin =>
      split at h
      next hin2 => simp at h
      next ass1 kk2 hin2 =>
        split at h
        next hin3 => simp at h
        next d ls kk3 hin3 =>
          simp only [Prod.mk.injEq, Except.ok.injEq] at h
          obtain ⟨h1, -⟩ := h
          have ht := copy_str_ok _ _ _ _ _ hin
          have ha := copy_str_ok _ _ _ _ _ hin2
          obtain ⟨hd, hl⟩ := copy_planes_ok _ _ _ _ _ _ _ hin3
          rw [← h1, ht, ha, hd, hl]
          rfl
  · simp at h

theorem copy_rect_err (alloc : Nat → Bool) (k : Nat) (r : AVSubtitleRect)
    (e : Int) (k1 : Nat) (h : copy_rect alloc k r = (Except.error e, k1)) :
    e = AVERROR_ENOMEM := by
  simp only [copy_rect] at h
  split at h
  · split at h
    next hin =>
      simp only [Prod.mk.injEq, Except.error.injEq] at h
      exact h.1 ▸ copy_str_err _ _ _ _ _ hin
    next text1 kk hin =>
      split at h
      next hin2 =>
        simp only [Prod.mk.injEq, Except.error.injEq] at h
        exact h.1 ▸ copy_str_err _ _ _ _ _ hin2
      next ass1 kk2 hin2 =>
        split at h
        next hin3 =>
          simp only [Prod.mk.injEq, Except.error.injEq] at h
          exact h.1 ▸ copy_planes_err _ _ _ _ _ _ hin3
        next d ls kk3 hin3 => simp at h
  · simp only [Prod.mk.injEq, Except.error.injEq] at h
    exact h.1.symm

theorem copy_rects_ok (alloc : Nat → Bool) :
    ∀ (rs : List AVSubtitleRect) (k : Nat) (rs1 : List AVSubtitleRect) (k1 : Nat),
      copy_rects alloc k rs = (Except.ok rs1, k1) →
      rs1 = rs.map rect_copy_spec := by
  intro rs
  induction rs with
  | nil =>
      intro k rs1 k1 h
      simp only [copy_rects, Prod.mk.injEq, Except.ok.injEq] at h
      simp [← h.1]
  | cons r rs ih =>
      intro k rs1 k1 h
      simp only [copy_rects] at h
      split at h
      next hin => simp at h
      next r1 kk hin =>
        split at h
        next hin2 => simp at h
        next rs2 kk2 hin2 =>
          simp only [Prod.mk.injEq, Except.ok.injEq] at h
          rw [← h.1, copy_rect_ok _ _ _ _ _ hin, ih _ _ _ hin2]
          simp

theorem copy_rects_err (alloc : Nat → Bool) :
    ∀ (rs : List AVSubtitleRect) (k : Nat) (e : Int) (k1 : Nat),
      copy_rects alloc k rs = (Except.error e, k1) → e = AVERROR_ENOMEM := by
  intro rs
  induction rs with
  | nil => intro k e k1 h; simp [copy_rects] at h
  | cons r rs ih =>
      intro k e k1 h
      simp only [copy_rects] at h
      split at h
      next hin =>
        simp only [Prod.mk.injEq, Except.error.injEq] at h
        exact h.1 ▸ copy_rect_err _ _ _ _ _ hin
      next r1 kk hin =>
        split at h
        next hin2 =>
          simp only [Prod.mk.injEq, Except.error.injEq] at h
          exact h.1 ▸ ih _ _ _ hin2
        next rs2 kk2 hin2 => simp at h

/-- The all-zero rect used as the getD default below. -/
def null_rect : AVSubtitleRect :=
  { type := 0, flags := 0, x := 0, y := 0, w := 0, h := 0, nb_colors := 0,
    text := none, ass := none, data := [], linesize := [] }

theorem map4_getD {α : Type} (f : Nat → α) (a : α) (j : Nat) (hj : j < 4) :
    (([0, 1, 2, 3].map f).getD j a) = f j := by
  interval_cases j <;> rfl

/-- C7: a successful copy agrees with the source on format, pts, display
times, num_rects and, per rect, on type, flags, geometry, colors, text,
ASS bytes, and the data planes and linesizes of every present plane
(given the C invariant that a plane buffer holds buf_size bytes); a
subtitle with no rects copies successfully consuming no allocation; any
allocation failure yields AVERROR(ENOMEM) and no destination subtitle.
The source, being a pure value here, is never modified. -/
theorem copy_av_subtitle_spec (alloc : Nat → Bool) (src : AVSubtitle) :
    (∀ dst k, copy_av_subtitle alloc src = (Except.ok dst, k) →
      dst.format = src.format ∧ dst.pts = src.pts ∧
      dst.start_display_time = src.start_display_time ∧
      dst.end_display_time = src.end_display_time ∧
      dst.rects.length = src.rects.length ∧
      (∀ i, i < src.rects.length →
        ((dst.rects.getD i null_rect).type = (src.rects.getD i null_rect).type ∧
         (dst.rects.getD i null_rect).flags = (src.rects.getD i null_rect).flags ∧
         (dst.rects.getD i null_rect).x = (src.rects.getD i null_rect).x ∧
         (dst.rects.getD i null_rect).y = (src.rects.getD i null_rect).y ∧
         (dst.rects.getD i null_rect).w = (src.rects.getD i null_rect).w ∧
         (dst.rects.getD i null_rect).h = (src.rects.getD i null_rect).h ∧
         (dst.rects.getD i null_rect).nb_colors =
           (src.rects.getD i null_rect).nb_colors ∧
         (dst.rects.getD i null_rect).text = (src.rects.getD i null_rect).text ∧
         (dst.rects.getD i null_rect).ass = (src.rects.getD i null_rect).ass) ∧
        (∀ j, j < 4 → ∀ buf,
          (src.rects.getD i null_rect).data.getD j none = some buf →
          buf.length ≤ (rect_buf_size (src.rects.getD i null_rect) j).toNat →
          (dst.rects.getD i null_rect).data.getD j none = some buf ∧
          (dst.rects.getD i null_rect).linesize.getD j 0 =
            (src.rects.getD i null_rect).linesize.getD j 0))) ∧
    (src.rects = [] →
      copy_av_subtitle alloc src =
        (Except.ok
          { format := src.format,
            start_display_time := src.start_display_time,
            end_display_time := src.end_display_time, rects := [],
            pts := src.pts }, 0)) ∧
    (∀ e k, copy_av_subtitle alloc src = (Except.error e, k) →
      e = AVERROR_ENOMEM) := by
  refine ⟨?_, ?_, ?_⟩
  · intro dst k h
    simp only [copy_av_subtitle] at h
    split at h
    next hz =>
      simp only [Prod.mk.injEq, Except.ok.injEq] at h
      obtain ⟨h1, -⟩ := h
      rw [← h1]
      refine ⟨rfl, rfl, rfl, rfl, by simpa using hz.symm, ?_⟩
      intro i hi
      rw [hz] at hi
      cases hi
    next hz =>
      split at h
      · split at h
        next hin => simp at h
        next rs kk hin =>
          simp only [Prod.mk.injEq, Except.ok.injEq] at h
          obtain ⟨h1, -⟩ := h
          have hrs := copy_rects_ok _ _ _ _ _ hin
          have hr2 : dst.rects = rs := by rw [← h1]
          refine ⟨by rw [← h1], by rw [← h1], by rw [← h1], by rw [← h1],
            by rw [hr2, hrs]; simp, ?_⟩
          intro i hi
          rw [hr2]
          have hget : rs.getD i null_rect =
              rect_copy_spec (src.rects.getD i null_rect) := by
            rw [hrs, List.getD_eq_getElem _ _ (by simpa using hi),
              List.getD_eq_getElem _ _ hi, List.getElem_map]
          rw [hget]
          constructor
          · exact ⟨rfl, rfl, rfl, rfl, rfl, rfl, rfl, rfl, rfl⟩
          · intro j hj buf hbuf hlen
            constructor
            · show (rect_copy_spec (src.rects.getD i null_rect)).data.getD j none = _
              unfold rect_copy_spec
              rw [map4_getD _ _ _ hj]
              unfold plane_copy
              rw [hbuf]
              exact congrArg some (List.take_of_length_le hlen)
            · show (rect_copy_spec (src.rects.getD i null_rect)).linesize.getD j 0 = _
              unfold rect_copy_spec
              rw [map4_getD _ _ _ hj]
              unfold lsz_copy
              rw [hbuf]
      · simp at h
  · intro hz
    simp [copy_av_subtitle, hz]
  · intro e k h
    simp only [copy_av_subtitle] at h
    split at h
    next hz => simp at h
    next hz =>
      split at h
      · split at h
        next hin =>
          simp only [Prod.mk.injEq, Except.error.injEq] at h
          exact h.1 ▸ copy_rects_err _ _ _ _ _ hin
        next rs kk hin => simp at h
      · simp only [Prod.mk.injEq, Except.error.injEq] at h
        exact h.1.symm

/-- A one-rect bitmap subtitle used to exercise the copy. -/
def witness_subtitle_src : AVSubtitle :=
  { format := 0, start_display_time := 1, end_display_time := 2,
    rects := [{ type := 1, flags := 0, x := 0, y := 0, w := 2, h := 1,
                nb_colors := 2, text := some "hi", ass := none,
                data := [some [7, 8], some [1, 2, 3], none, none],
                linesize := [2, 0, 9, 0] }],
    pts := 77 }

/-- The copy of witness_subtitle_src: identical except that the linesize
of the absent third plane is left at the zero of av_mallocz. -/
def witness_subtitle_dst : AVSubtitle :=
  { format := 0, start_display_time := 1, end_display_time := 2,
    rects := [{ type := 1, flags := 0, x := 0, y := 0, w := 2, h := 1,
                nb_colors := 2, text := some "hi", ass := none,
                data := [some [7, 8], some [1, 2, 3], none, none],
                linesize := [2, 0, 0, 0] }],
    pts := 77 }

theorem copy_av_subtitle_spec_witness :
    copy_av_subtitle (fun _ => true) witness_subtitle_src =
      (Except.ok witness_subtitle_dst, 5) ∧
    witness_subtitle_dst.format = witness_subtitle_src.format ∧
    witness_subtitle_dst.rects.length = witness_subtitle_src.rects.length ∧
    (witness_subtitle_dst.rects.getD 0 null_rect).data.getD 0 none =
      some [7, 8] := by
  have hcopy : copy_av_subtitle (fun _ => true) witness_subtitle_src =
      (Except.ok witness_subtitle_dst, 5) := by rfl
  have h := (copy_av_subtitle_spec (fun _ => true) witness_subtitle_src).1
    witness_subtitle_dst 5 hcopy
  refine ⟨hcopy, h.1, h.2.2.2.2.1, ?_⟩
  have h6 := h.2.2.2.2.2 0 (by decide)
  have h7 := h6.2 0 (by decide) [7, 8] (by decide) (by decide)
  exact h7.1

/-! ## decode_flush and process_input (lines 1025-1121)

The demuxer (ifile_get_packet) and decoder (dec_packet) are
collaborators: the demuxer's verdict is an explicit parameter, and each
stream carries the finite list of values its decoder returns for
successive flush calls, AVERROR_EOF being returned once the list is
exhausted.  Side effects are reified as an event trace. -/

/-- Modelled from the spec: av_rescale_q of libavutil (the library is
not part of this repository) rescales a from time base bnum/bden to
cnum/cden rounding to nearest with halfway cases away from zero. -/
def av_rescale_q (a bnum bden cnum cden : Int) : Int :=
  let n := a * bnum * cden
  let d := cnum * bden
  if 0 ≤ n then Int.tdiv (2 * n + d) (2 * d)
  else -Int.tdiv (2 * (-n) + d) (2 * d)

/-- Observable actions of process_input and decode_flush on stream i of
the input file. -/
inductive InEvent where
  | sendNull : Nat → InEvent
  | flushCodec : Nat → InEvent
  | audioDuration : Nat → Int → InEvent
  | closeOutputs : Nat → InEvent
  | resetEagain : InEvent
  | sub2video : InEvent
  | dispatchPacket : Nat → InEvent
deriving DecidableEq, Repr

/-- A stream of an input file as decode_flush and process_input see it:
the process_input_packet slice, the discard flag, the data feeding the
audio-duration report, and the decoder's flush responses. -/
structure FlushStream where
  ist : PIPInputStream
  discard : Bool
  is_audio : Bool
  nb_samples : Int
  sample_rate : Int
  tb_num : Int
  tb_den : Int
  dec_responses : List Int
deriving DecidableEq, Repr

structure FlushInputFile where
  pf : PIPInputFile
  streams : List FlushStream
deriving DecidableEq, Repr

/-- The do-while loop at lines 1034-1036: keep feeding a null packet
through process_input_packet (with no_eof set) until it stops reporting
progress; returns the number of null packets pushed.  The decoder
consumes one response per call and reports AVERROR_EOF once drained. -/
def flush_loop (cts saz : Bool) (pf : PIPInputFile) (ist : PIPInputStream) :
    List Int → Nat
  | [] => 1
  | r :: rest =>
      if (process_input_packet cts saz pf ist none true r).1 > 0 then
        1 + flush_loop cts saz pf ist rest
      else 1

/-- The body of decode_flush for stream i, lines 1027-1052. -/
def decode_flush_stream (cts saz : Bool) (pf : PIPInputFile) (i : Nat)
    (fs : FlushStream) : List InEvent :=
  if fs.discard then []
  else
    List.replicate (flush_loop cts saz pf fs.ist fs.dec_responses)
      (InEvent.sendNull i) ++
    (if fs.ist.decoding_needed then
      (if fs.is_audio then
        [InEvent.audioDuration i
          (av_rescale_q fs.nb_samples 1 fs.sample_rate fs.tb_num fs.tb_den)]
      else []) ++ [InEvent.flushCodec i]
    else [])

def decode_flush_go (cts saz : Bool) (pf : PIPInputFile) :
    List FlushStream → Nat → List InEvent
  | [], _ => []
  | fs :: rest, i =>
      decode_flush_stream cts saz pf i fs ++
      decode_flush_go cts saz pf rest (i + 1)

def decode_flush (cts saz : Bool) (f : FlushInputFile) : List InEvent :=
  decode_flush_go cts saz f.pf f.streams 0

/-- What ifile_get_packet handed back: a packet for a stream, EAGAIN,
the looped-input signal 1, or a negative error (AVERROR_EOF included). -/
inductive GetPacketResult where
  | pkt : Nat → PIPPacket → GetPacketResult
  | again : GetPacketResult
  | looped : GetPacketResult
  | err : Int → GetPacketResult
deriving DecidableEq, Repr

structure ProcessInputResult where
  ret : Int
  events : List InEvent
  set_eagain : Bool
  set_eof_reached : Bool
deriving DecidableEq, Repr

/-- The error/EOF branch of process_input, lines 1081-1107: flush each
non-discarded stream once, returning 0 as soon as one reports progress;
otherwise close every output of each stream, then mark eof_reached and
return EAGAIN. -/
def process_input_eof_go (cts saz : Bool) (pf : PIPInputFile) :
    List FlushStream → Nat → Int × List InEvent
  | [], _ => (AVERROR_EAGAIN, [])
  | fs :: rest, i =>
      let pipEvents := if fs.discard then [] else [InEvent.sendNull i]
      if !fs.discard &&
          decide ((process_input_packet cts saz pf fs.ist none false
            (fs.dec_responses.headD AVERROR_EOF)).1 > 0) then
        (0, pipEvents)
      else
        let r := process_input_eof_go cts saz pf rest (i + 1)
        (r.1, pipEvents ++ [InEvent.closeOutputs i] ++ r.2)

/-- process_input, lines 1063-1121. -/
def process_input (cts saz : Bool) (f : FlushInputFile)
    (g : GetPacketResult) : ProcessInputResult :=
  match g with
  | GetPacketResult.again => ⟨AVERROR_EAGAIN, [], true, false⟩
  | GetPacketResult.looped => ⟨AVERROR_EAGAIN, decode_flush cts saz f, false, false⟩
  | GetPacketResult.err _ =>
      let r := process_input_eof_go cts saz f.pf f.streams 0
      ⟨r.1, r.2, false, decide (r.1 = AVERROR_EAGAIN)⟩
  | GetPacketResult.pkt idx _ =>
      ⟨0, [InEvent.resetEagain, InEvent.sub2video, InEvent.dispatchPacket idx],
        false, false⟩

theorem flush_loop_spec (cts saz : Bool) (pf : PIPInputFile)
    (ist : PIPInputStream) :
    ∀ rs : List Int,
      flush_loop cts saz pf ist rs =
        if ist.decoding_needed then
          (rs.takeWhile (fun r => !decide (r = AVERROR_EOF))).length + 1
        else 1 := by
  intro rs
  induction rs with
  | nil => simp [flush_loop]
  | cons r rest ih =>
      simp only [flush_loop]
      by_cases hd : ist.decoding_needed = true
      · by_cases hr : r = AVERROR_EOF
        · subst hr
          have hpip : (process_input_packet cts saz pf ist none true
              AVERROR_EOF).1 = 0 := by
            simp [process_input_packet, hd]
          simp [hpip, hd, List.takeWhile_cons]
        · have hpip : (process_input_packet cts saz pf ist none true r).1 = 1 := by
            simp [process_input_packet, hd, hr]
          simp only [hpip, hd, List.takeWhile_cons, ih]
          simp [hr]
          omega
      · have hd' : ist.decoding_needed = false := by
          revert hd; cases ist.decoding_needed <;> simp
        have hpip : (process_input_packet cts saz pf ist none true r).1 = 0 := by
          simp [process_input_packet, hd']
        simp [hpip, hd']

theorem decode_flush_stream_shape (cts saz : Bool) (pf : PIPInputFile)
    (j : Nat) (fs : FlushStream) :
    ∀ e ∈ decode_flush_stream cts saz pf j fs,
      e = InEvent.sendNull j ∨ e = InEvent.flushCodec j ∨
      ∃ d, e = InEvent.audioDuration j d := by
  intro e he
  simp only [decode_flush_stream] at he
  split at he
  · cases he
  · rw [List.mem_append] at he
    rcases he with he | he
    · exact Or.inl (List.eq_of_mem_replicate he)
    · split at he
      · rw [List.mem_append] at he
        rcases he with he | he
        · split at he
          · simp only [List.mem_singleton] at he
            exact Or.inr (Or.inr ⟨_, he⟩)
          · cases he
        · simp only [List.mem_singleton] at he
          exact Or.inr (Or.inl he)
      · cases he

theorem decode_flush_go_no_dispatch (cts saz : Bool) (pf : PIPInputFile) :
    ∀ (streams : List FlushStream) (n i : Nat),
      InEvent.dispatchPacket i ∉ decode_flush_go cts saz pf streams n := by
  intro streams
  induction streams with
  | nil => intro n i h; cases h
  | cons fs rest ih =>
      intro n i h
      rw [decode_flush_go, List.mem_append] at h
      rcases h with h | h
      · rcases decode_flush_stream_shape cts saz pf n fs _ h with
          h1 | h1 | ⟨d, h1⟩ <;> cases h1
      · exact ih _ _ h

/-- Occurrences of an event in a trace. -/
def count_event : List InEvent → InEvent → Nat
  | [], _ => 0
  | x :: xs, e => (if x = e then 1 else 0) + count_event xs e

theorem count_event_append (l1 l2 : List InEvent) (e : InEvent) :
    count_event (l1 ++ l2) e = count_event l1 e + count_event l2 e := by
  induction l1 with
  | nil => simp [count_event]
  | cons x xs ih => simp [count_event, ih]; omega

theorem count_event_replicate (n : Nat) (x e : InEvent) :
    count_event (List.replicate n x) e = if x = e then n else 0 := by
  induction n with
  | zero => simp [count_event]
  | succ n ih =>
      simp only [List.replicate_succ, count_event, ih]
      split <;> omega

theorem count_sendNull_stream (cts saz : Bool) (pf : PIPInputFile)
    (i j : Nat) (fs : FlushStream) :
    count_event (decode_flush_stream cts saz pf j fs) (InEvent.sendNull i) =
      if j = i ∧ fs.discard = false then
        flush_loop cts saz pf fs.ist fs.dec_responses
      else 0 := by
  simp only [decode_flush_stream]
  by_cases hd : fs.discard = true
  · simp [hd, count_event]
  · have hd' : fs.discard = false := by
      revert hd; cases fs.discard <;> simp
    rw [if_neg (by simp [hd'])]
    rw [count_event_append, count_event_replicate]
    have htail : count_event
        (if fs.ist.decoding_needed = true then
          (if fs.is_audio = true then
            [InEvent.audioDuration j
              (av_rescale_q fs.nb_samples 1 fs.sample_rate fs.tb_num fs.tb_den)]
          else []) ++ [InEvent.flushCodec j]
        else []) (InEvent.sendNull i) = 0 := by
      split
      · rw [count_event_append]
        split <;> simp [count_event]
      · simp [count_event]
    rw [htail]
    by_cases hij : j = i
    · subst hij
      simp [hd']
    · rw [if_neg (by simp [hij]), if_neg (by simp [hij])]

theorem count_sendNull_go_lt (cts saz : Bool) (pf : PIPInputFile)
    (i : Nat) :
    ∀ (streams : List FlushStream) (n : Nat), i < n →
      count_event (decode_flush_go cts saz pf streams n)
        (InEvent.sendNull i) = 0 := by
  intro streams
  induction streams with
  | nil => intro n hn; simp [decode_flush_go, count_event]
  | cons fs rest ih =>
      intro n hn
      rw [decode_flush_go, count_event_append, count_sendNull_stream]
      rw [if_neg (by rintro ⟨h, -⟩; omega)]
      rw [ih (n + 1) (by omega)]

theorem count_sendNull_go (cts saz : Bool) (pf : PIPInputFile) :
    ∀ (streams : List FlushStream) (n j : Nat) (fs : FlushStream),
      streams[j]? = some fs →
      count_event (decode_flush_go cts saz pf streams n)
        (InEvent.sendNull (n + j)) =
        if fs.discard then 0
        else flush_loop cts saz pf fs.ist fs.dec_responses := by
  intro streams
  induction streams with
  | nil => intro n j fs h; simp at h
  | cons fs0 rest ih =>
      intro n j fs h
      rw [decode_flush_go, count_event_append, count_sendNull_stream]
      cases j with
      | zero =>
          simp only [List.getElem?_cons_zero, Option.some.injEq] at h
          subst h
          rw [count_sendNull_go_lt cts saz pf _ rest (n + 1) (by omega)]
          by_cases hd : fs0.discard = true
          · simp [hd]
          · have hd2 : fs0.discard = false := by
              revert hd; cases fs0.discard <;> simp
            simp [hd2]
      | succ j =>
          simp only [List.getElem?_cons_succ] at h
          rw [if_neg (by rintro ⟨h1, -⟩; omega)]
          have := ih (n + 1) j fs h
          rw [show n + 1 + j = n + (j + 1) by omega] at this
          rw [this]
          omega

theorem flushCodec_mem_go (cts saz : Bool) (pf : PIPInputFile) :
    ∀ (streams : List FlushStream) (n j : Nat) (fs : FlushStream),
      streams[j]? = some fs → fs.discard = false →
      fs.ist.decoding_needed = true →
      InEvent.flushCodec (n + j) ∈ decode_flush_go cts saz pf streams n := by
  intro streams
  induction streams with
  | nil => intro n j fs h; simp at h
  | cons fs0 rest ih =>
      intro n j fs h hd hdec
      rw [decode_flush_go, List.mem_append]
      cases j with
      | zero =>
          simp only [List.getElem?_cons_zero, Option.some.injEq] at h
          subst h
          refine Or.inl ?_
          simp only [decode_flush_stream, hd, Bool.false_eq_true, if_false,
            hdec, if_true, List.mem_append]
          refine Or.inr (Or.inr ?_)
          simp
      | succ j =>
          simp only [List.getElem?_cons_succ] at h
          refine Or.inr ?_
          have := ih (n + 1) j fs h hd hdec
          rw [show n + 1 + j = n + (j + 1) by omega] at this
          exact this

/-- C8: on the looped-input signal (ifile_get_packet returning 1),
process_input performs exactly the decode_flush trace and returns
retry-again; that trace dispatches no packet, pushes a null packet
through every non-discarded stream until its decoder reports EOF
(once for streams not decoded), and flushes the codec buffers of every
stream needing decoding. -/
theorem process_input_looped (cts saz : Bool) (f : FlushInputFile)
    (g : GetPacketResult) (hg : g = GetPacketResult.looped) :
    (process_input cts saz f g).ret = AVERROR_EAGAIN ∧
    (process_input cts saz f g).events = decode_flush cts saz f ∧
    (∀ i, InEvent.dispatchPacket i ∉ (process_input cts saz f g).events) ∧
    (∀ i fs, f.streams[i]? = some fs → fs.discard = false →
      (count_event (process_input cts saz f g).events (InEvent.sendNull i) =
        if fs.ist.decoding_needed then
          (fs.dec_responses.takeWhile
            (fun r => !decide (r = AVERROR_EOF))).length + 1
        else 1) ∧
      (fs.ist.decoding_needed = true →
        InEvent.flushCodec i ∈ (process_input cts saz f g).events)) := by
  subst hg
  refine ⟨rfl, rfl, ?_, ?_⟩
  · intro i
    exact decode_flush_go_no_dispatch cts saz f.pf f.streams 0 i
  · intro i fs hi hd
    constructor
    · have hc := count_sendNull_go cts saz f.pf f.streams 0 i fs hi
      rw [show (0 + i) = i by omega] at hc
      show count_event (decode_flush_go cts saz f.pf f.streams 0) _ = _
      rw [hc]
      simp only [hd, Bool.false_eq_true, if_false]
      rw [flush_loop_spec]
    · intro hdec
      have hm := flushCodec_mem_go cts saz f.pf f.streams 0 i fs hi hd hdec
      rw [show (0 + i) = i by omega] at hm
      exact hm

/-- A two-stream input file: a decoded stream whose flush takes two
successful calls before EOF, and a stream-copy-only stream. -/
def witness_flush_file : FlushInputFile :=
  ⟨⟨INT64_MAX, AV_NOPTS_VALUE, 0⟩,
   [⟨⟨true, []⟩, false, false, 0, 1, 1, 1, [0, 0]⟩,
    ⟨⟨false, []⟩, false, false, 0, 1, 1, 1, []⟩]⟩

theorem process_input_looped_witness :
    (process_input false false witness_flush_file
      GetPacketResult.looped).ret = AVERROR_EAGAIN ∧
    count_event (process_input false false witness_flush_file
      GetPacketResult.looped).events (InEvent.sendNull 0) = 3 ∧
    count_event (process_input false false witness_flush_file
      GetPacketResult.looped).events (InEvent.sendNull 1) = 1 ∧
    InEvent.flushCodec 0 ∈ (process_input false false witness_flush_file
      GetPacketResult.looped).events := by
  have h := process_input_looped false false witness_flush_file
    GetPacketResult.looped rfl
  have h0 := h.2.2.2 0 ⟨⟨true, []⟩, false, false, 0, 1, 1, 1, [0, 0]⟩ rfl rfl
  have h1 := h.2.2.2 1 ⟨⟨false, []⟩, false, false, 0, 1, 1, 1, []⟩ rfl rfl
  refine ⟨h.1, ?_, ?_, h0.2 rfl⟩
  · exact h0.1.trans (by decide)
  · exact h1.1.trans (by decide)

/-! ## fix_sub_duration_heartbeat and its trigger (lines 718-766)

process_subtitle is a collaborator: its return value is the pst_ret
parameter; a subtitle handed to it is recorded in the emission list. -/

/-- The slice of InputStream the heartbeat consults: the configuration
flag, the last emitted subtitle snapshot (prev_sub.subtitle), and the
fields of the sibling-skip test. -/
structure HBInputStream where
  fix_sub_duration : Bool
  prev_sub : AVSubtitle
  decoding_needed : Bool
  is_subtitle : Bool
deriving DecidableEq, Repr

/-- One entry of of->streams as the trigger loop sees it: whether it is
the stream that caused the heartbeat, and its input stream (none when
the output has no input stream). -/
structure HBSibling where
  is_self : Bool
  ist : Option HBInputStream
deriving DecidableEq, Repr

/-- The packet fields the trigger consults: pts, its time base, and the
keyframe flag (AV_PKT_FLAG_KEY). -/
structure HBPacket where
  pts : Int
  tb_num : Int
  tb_den : Int
  key : Bool
deriving DecidableEq, Repr

/-- fix_sub_duration_heartbeat, lines 718-735: bail out with 0 unless
fix_sub_duration is on, the previous subtitle has rects, and signal_pts
is strictly past its pts; otherwise deep-copy the previous subtitle,
stamp it with signal_pts and hand it to process_subtitle. -/
def fix_sub_duration_heartbeat (alloc : Nat → Bool) (pst_ret : Int)
    (ist : HBInputStream) (signal_pts : Int) : Int × Option AVSubtitle :=
  if !ist.fix_sub_duration || decide (ist.prev_sub.rects.length = 0) ||
      decide (signal_pts ≤ ist.prev_sub.pts) then (0, none)
  else
    match (copy_av_subtitle alloc ist.prev_sub).1 with
    | Except.error e => (e, none)
    | Except.ok sub => (pst_ret, some { sub with pts := signal_pts })

/-- The sibling loop of the trigger, lines 748-763: skip the causing
stream, outputs without an input, undecoded inputs and non-subtitle
inputs; abort on a negative heartbeat result, else return 0. -/
def trigger_go (alloc : Nat → Bool) (pst_ret : Int) (signal_pts : Int) :
    List HBSibling → Int × List AVSubtitle
  | [] => (0, [])
  | s :: rest =>
      match s.ist with
      | none => trigger_go alloc pst_ret signal_pts rest
      | some ist =>
          if s.is_self || !ist.decoding_needed || !ist.is_subtitle then
            trigger_go alloc pst_ret signal_pts rest
          else
            let r := fix_sub_duration_heartbeat alloc pst_ret ist signal_pts
            if r.1 < 0 then (r.1, r.2.toList)
            else
              let rest1 := trigger_go alloc pst_ret signal_pts rest
              (rest1.1, r.2.toList ++ rest1.2)

/-- trigger_fix_sub_duration_heartbeat, lines 737-766: signal_pts is the
packet pts rescaled to AV_TIME_BASE; nothing happens unless the stream
has the heartbeat configured and the packet is a keyframe. -/
def trigger_fix_sub_duration_heartbeat (alloc : Nat → Bool) (pst_ret : Int)
    (ost_heartbeat_flag : Bool) (pkt : HBPacket)
    (siblings : List HBSibling) : Int × List AVSubtitle :=
  let signal_pts := av_rescale_q pkt.pts pkt.tb_num pkt.tb_den 1 1000000
  if !ost_heartbeat_flag || !pkt.key then (0, [])
  else trigger_go alloc pst_ret signal_pts siblings

theorem fix_sub_duration_heartbeat_none (alloc : Nat → Bool) (pst_ret : Int)
    (ist : HBInputStream) (signal_pts : Int)
    (h : ist.fix_sub_duration = false ∨ ist.prev_sub.rects.length = 0 ∨
      signal_pts ≤ ist.prev_sub.pts) :
    fix_sub_duration_heartbeat alloc pst_ret ist signal_pts = (0, none) := by
  rcases h with h | h | h <;> simp [fix_sub_duration_heartbeat, h]

theorem fix_sub_duration_heartbeat_some (alloc : Nat → Bool) (pst_ret : Int)
    (ist : HBInputStream) (signal_pts : Int) (sub : AVSubtitle)
    (h : (fix_sub_duration_heartbeat alloc pst_ret ist signal_pts).2 =
      some sub) :
    ist.fix_sub_duration = true ∧ 0 < ist.prev_sub.rects.length ∧
    ist.prev_sub.pts < signal_pts ∧ sub.pts = signal_pts := by
  simp only [fix_sub_duration_heartbeat] at h
  split at h
  · cases h
  · next hguard =>
      simp only [Bool.or_eq_true, Bool.not_eq_true', decide_eq_true_eq,
        not_or] at hguard
      obtain ⟨⟨hf, hn⟩, hp⟩ := hguard
      split at h
      · cases h
      · next sub0 heq =>
          simp only [Option.some.injEq] at h
          refine ⟨?_, by omega, by omega, ?_⟩
          · revert hf; cases ist.fix_sub_duration <;> simp
          · rw [← h]

theorem trigger_go_emits (alloc : Nat → Bool) (pst_ret : Int)
    (signal_pts : Int) :
    ∀ (siblings : List HBSibling) (sub : AVSubtitle),
      sub ∈ (trigger_go alloc pst_ret signal_pts siblings).2 →
      sub.pts = signal_pts ∧
      ∃ s ∈ siblings, ∃ ist, s.ist = some ist ∧ s.is_self = false ∧
        ist.decoding_needed = true ∧ ist.is_subtitle = true ∧
        ist.fix_sub_duration = true ∧ 0 < ist.prev_sub.rects.length ∧
        ist.prev_sub.pts < signal_pts := by
  intro siblings
  induction siblings with
  | nil => intro sub h; cases h
  | cons s rest ih =>
      intro sub h
      simp only [trigger_go] at h
      split at h
      · obtain ⟨h1, s1, hs1, h2⟩ := ih sub h
        exact ⟨h1, s1, List.mem_cons_of_mem _ hs1, h2⟩
      · next ist hsist =>
          split at h
          · obtain ⟨h1, s1, hs1, h2⟩ := ih sub h
            exact ⟨h1, s1, List.mem_cons_of_mem _ hs1, h2⟩
          · next hskip =>
              have hself2 : s.is_self = false := by
                revert hskip; cases s.is_self <;> simp
              have hdec2 : ist.decoding_needed = true := by
                revert hskip; cases ist.decoding_needed <;> simp
              have hsubt2 : ist.is_subtitle = true := by
                revert hskip; cases ist.is_subtitle <;> simp
              split at h
              · rw [Option.mem_toList] at h
                obtain ⟨hf, hn, hp, hpts⟩ :=
                  fix_sub_duration_heartbeat_some alloc pst_ret ist
                    signal_pts sub h
                exact ⟨hpts, s, List.mem_cons_self _ _,
                  ist, hsist, hself2, hdec2, hsubt2, hf, hn, hp⟩
              · rw [List.mem_append] at h
                rcases h with h | h
                · rw [Option.mem_toList] at h
                  obtain ⟨hf, hn, hp, hpts⟩ :=
                    fix_sub_duration_heartbeat_some alloc pst_ret ist
                      signal_pts sub h
                  exact ⟨hpts, s, List.mem_cons_self _ _,
                    ist, hsist, hself2, hdec2, hsubt2, hf, hn, hp⟩
                · obtain ⟨h1, s1, hs1, h2⟩ := ih sub h
                  exact ⟨h1, s1, List.mem_cons_of_mem _ hs1, h2⟩

/-- C10: the heartbeat pair emits nothing and returns 0 unless the
triggering stream has the heartbeat configured and the packet is a
keyframe, and every subtitle it does emit comes from a sibling with a
decoded subtitle input whose fix_sub_duration is on, whose previous
subtitle has at least one rect, and carries as pts the packet pts
rescaled to AV_TIME_BASE, strictly greater than that previous
subtitle's pts; likewise fix_sub_duration_heartbeat itself returns
(0, no emission) when its guard fails. -/
theorem trigger_heartbeat_guard (alloc : Nat → Bool) (pst_ret : Int)
    (flag : Bool) (pkt : HBPacket) (siblings : List HBSibling) :
    ((flag = false ∨ pkt.key = false) →
      trigger_fix_sub_duration_heartbeat alloc pst_ret flag pkt siblings =
        (0, [])) ∧
    (∀ sub ∈ (trigger_fix_sub_duration_heartbeat alloc pst_ret flag pkt
        siblings).2,
      flag = true ∧ pkt.key = true ∧
      sub.pts = av_rescale_q pkt.pts pkt.tb_num pkt.tb_den 1 1000000 ∧
      ∃ s ∈ siblings, ∃ ist, s.ist = some ist ∧ s.is_self = false ∧
        ist.decoding_needed = true ∧ ist.is_subtitle = true ∧
        ist.fix_sub_duration = true ∧ 0 < ist.prev_sub.rects.length ∧
        ist.prev_sub.pts < sub.pts) ∧
    (∀ (ist : HBInputStream) (signal_pts : Int),
      (ist.fix_sub_duration = false ∨ ist.prev_sub.rects.length = 0 ∨
        signal_pts ≤ ist.prev_sub.pts) →
      fix_sub_duration_heartbeat alloc pst_ret ist signal_pts = (0, none)) := by
  refine ⟨?_, ?_, fun ist sp h => fix_sub_duration_heartbeat_none _ _ _ _ h⟩
  · intro h
    rcases h with h | h <;> simp [trigger_fix_sub_duration_heartbeat, h]
  · intro sub hsub
    simp only [trigger_fix_sub_duration_heartbeat] at hsub
    split at hsub
    · cases hsub
    · next hcond =>
        simp only [Bool.or_eq_true, Bool.not_eq_true', not_or] at hcond
        obtain ⟨hflag, hkey⟩ := hcond
        have hflag2 : flag = true := by
          revert hflag; cases flag <;> simp
        have hkey2 : pkt.key = true := by
          revert hkey; cases pkt.key <;> simp
        obtain ⟨h1, s1, hs1, h2⟩ := trigger_go_emits alloc pst_ret _ _ sub hsub
        refine ⟨hflag2, hkey2, h1, s1, hs1, ?_⟩
        obtain ⟨ist, ha, hb, hc, hd, he, hf, hg⟩ := h2
        exact ⟨ist, ha, hb, hc, hd, he, hf, h1 ▸ hg⟩

theorem trigger_heartbeat_guard_witness :
    trigger_fix_sub_duration_heartbeat (fun _ => true) 0 true ⟨5, 1, 1, true⟩
      [⟨false, some ⟨true, witness_subtitle_src, true, true⟩⟩] =
      (0, [{ witness_subtitle_dst with pts := 5000000 }]) ∧
    ({ witness_subtitle_dst with pts := 5000000 } : AVSubtitle).pts =
      av_rescale_q 5 1 1 1 1000000 ∧
    witness_subtitle_src.pts < 5000000 ∧
    trigger_fix_sub_duration_heartbeat (fun _ => true) 0 true ⟨5, 1, 1, false⟩
      [⟨false, some ⟨true, witness_subtitle_src, true, true⟩⟩] = (0, []) := by
  have h := trigger_heartbeat_guard (fun _ => true) 0 true ⟨5, 1, 1, true⟩
    [⟨false, some ⟨true, witness_subtitle_src, true, true⟩⟩]
  have hrun : trigger_fix_sub_duration_heartbeat (fun _ => true) 0 true
      ⟨5, 1, 1, true⟩
      [⟨false, some ⟨true, witness_subtitle_src, true, true⟩⟩] =
      (0, [{ witness_subtitle_dst with pts := 5000000 }]) := by rfl
  refine ⟨hrun, ?_, by decide, ?_⟩
  · exact (h.2.1 _ (by rw [hrun]; exact List.mem_singleton_self _)).2.2.1
  · exact (trigger_heartbeat_guard (fun _ => true) 0 true ⟨5, 1, 1, false⟩
      [⟨false, some ⟨true, witness_subtitle_src, true, true⟩⟩]).1 (Or.inr rfl)
